import Mathlib

/-!
Verification development for the payment-maker repository.

The definitions below are a shallow embedding of the core data-processing
pipeline (`paymentmaker/core/data_processor.py` and
`paymentmaker/core/models.py`).  Python regular expressions are embedded
through a small backtracking engine (`RE`, `runRE`, `reSearch`) that mirrors
the leftmost-position, first-alternative, greedy-quantifier semantics of
`re.search`; `str.lower`, `str.strip` and friends are embedded over `List
Char` for the ASCII and basic-Cyrillic ranges that the program manipulates.
-/

/-- Unicode lowercasing restricted to ASCII and the basic Cyrillic block,
matching Python `str.lower` on the alphabets the program uses. -/
def charLower (c : Char) : Char :=
  let n := c.toNat
  if 65 ≤ n && n ≤ 90 then Char.ofNat (n + 32)
  else if 0x410 ≤ n && n ≤ 0x42F then Char.ofNat (n + 0x20)
  else if n = 0x401 then Char.ofNat 0x451
  else c

def pyLower (s : String) : String := String.mk (s.data.map charLower)

/-- Whitespace as recognized by Python `str.strip` and the regex class `\s`
(restricted to the characters that can occur in the data). -/
def isPySpaceChar (c : Char) : Bool :=
  c == ' ' || c == '\t' || c == '\n' || c == '\r' ||
  c.toNat == 11 || c.toNat == 12 || c.toNat == 0xA0

/-- The character class `[А-Яа-я]` (basic Cyrillic letters, both cases). -/
def isCyrBasic (c : Char) : Bool := 0x410 ≤ c.toNat && c.toNat ≤ 0x44F

/-- The character class `[А-Я]` (uppercase basic Cyrillic letters). -/
def isUpperCyr (c : Char) : Bool := 0x410 ≤ c.toNat && c.toNat ≤ 0x42F

/-- Word characters for the regex `\b` boundary (alphanumerics, underscore,
Cyrillic letters). -/
def isWordCharB (c : Char) : Bool :=
  c.isAlphanum || c == '_' || isCyrBasic c || c.toNat == 0x401 || c.toNat == 0x451

def stripChars (p : Char → Bool) (l : List Char) : List Char :=
  ((l.dropWhile p).reverse.dropWhile p).reverse

/-- Python `str.strip()` (no argument: strip whitespace on both ends). -/
def pyStrip (s : String) : String := String.mk (stripChars isPySpaceChar s.data)

/-- Python `str.strip('"')` as used on the raw address cell. -/
def stripQuotes (s : String) : String :=
  String.mk (stripChars (fun c => c == '"') s.data)

def splitOnChar (sep : Char) : List Char → List (List Char)
  | [] => [[]]
  | c :: rest =>
    let r := splitOnChar sep rest
    if c == sep then [] :: r
    else
      match r with
      | h :: t => (c :: h) :: t
      | [] => [[c]]

/-- Python `str.split('\n')` (keeps empty segments; `"".split` is `[""]`). -/
def splitLines (s : String) : List String := (splitOnChar '\n' s.data).map String.mk

/-- Regular-expression syntax used by the program: character classes,
concatenation, ordered alternation, greedy star, one capturing group, the
anchors `^`/`$` and the word boundary `\b`. -/
inductive RE where
  | eps
  | cls (p : Char → Bool)
  | cat (a b : RE)
  | alt (a b : RE)
  | star (a : RE)
  | grp (a : RE)
  | bol
  | eol
  | bnd

def wordnessB : Option Char → Bool
  | some c => isWordCharB c
  | none => false

def mergeCap (g1 g2 : Option (List Char)) : Option (List Char) :=
  match g1 with
  | some g => some g
  | none => g2

/-- Node count of a regex, used to compute a sufficient recursion budget. -/
def reSize : RE → Nat
  | .eps => 1
  | .cls _ => 1
  | .cat a b => reSize a + reSize b + 1
  | .alt a b => reSize a + reSize b + 1
  | .star a => reSize a + 1
  | .grp a => reSize a + 1
  | .bol => 1
  | .eol => 1
  | .bnd => 1

/-- A recursion budget that strictly exceeds any call depth the matcher can
reach on an input of length `n` (every star iteration must consume at least
one character, so the depth is bounded by the regex size times the input
length). -/
def reFuel (r : RE) (n : Nat) : Nat := (reSize r + 1) * (n + 2)

/-- All ways a regex can match a prefix of `s`, in Python backtracking
preference order (earlier alternatives first, greedy repetition).  Each
result records the character preceding the remaining input (for `\b`),
the remaining input, and the text captured by the group, if any.  The
recursion is structural on `fuel` (so that it reduces inside the kernel);
with the budget `reFuel` the base case is never reached. -/
def runRE : Nat → RE → Option Char → List Char → List (Option Char × List Char × Option (List Char))
  | 0, _, _, _ => []
  | fuel+1, r, prev, s =>
    match r with
    | .eps => [(prev, s, none)]
    | .cls p =>
      match s with
      | [] => []
      | c :: rest => if p c then [(some c, rest, none)] else []
    | .cat a b =>
      (runRE fuel a prev s).flatMap (fun t =>
        (runRE fuel b t.1 t.2.1).map (fun t2 => (t2.1, t2.2.1, mergeCap t.2.2 t2.2.2)))
    | .alt a b => runRE fuel a prev s ++ runRE fuel b prev s
    | .star a =>
      ((runRE fuel a prev s).filter (fun t => t.2.1.length < s.length)).flatMap
        (fun t => (runRE fuel (.star a) t.1 t.2.1).map
          (fun t2 => (t2.1, t2.2.1, mergeCap t.2.2 t2.2.2)))
      ++ [(prev, s, none)]
    | .grp a =>
      (runRE fuel a prev s).map (fun t => (t.1, t.2.1, some (s.take (s.length - t.2.1.length))))
    | .bol => if prev.isNone then [(prev, s, none)] else []
    | .eol => if s.isEmpty then [(prev, s, none)] else []
    | .bnd => if wordnessB prev != wordnessB s.head? then [(prev, s, none)] else []

/-- Scan the input left to right and return the first position at which the
regex matches (the leftmost-match rule of `re.search`); the payload is the
captured group of the preferred match at that position. -/
def reSearchAux (fuel : Nat) (r : RE) : Option Char → List Char → Option (Option (List Char))
  | prev, [] =>
    match runRE fuel r prev [] with
    | res :: _ => some res.2.2
    | [] => none
  | prev, c :: rest =>
    match runRE fuel r prev (c :: rest) with
    | res :: _ => some res.2.2
    | [] => reSearchAux fuel r (some c) rest

def reSearch (r : RE) (s : String) : Option (Option (List Char)) :=
  reSearchAux (reFuel r s.data.length) r none s.data

def reTest (r : RE) (s : String) : Bool := (reSearch r s).isSome

/-- A literal under `re.IGNORECASE` (every pattern in `_parse_addresses`
is compiled with that flag). -/
def litCI (w : String) : RE :=
  w.data.foldr (fun c acc => RE.cat (.cls (fun d => charLower d == charLower c)) acc) .eps

/-- A case-sensitive literal (the vehicle pattern has no `IGNORECASE`). -/
def litCS (w : String) : RE :=
  w.data.foldr (fun c acc => RE.cat (.cls (fun d => d == c)) acc) .eps

def wsCls : RE := .cls isPySpaceChar
def plusRE (r : RE) : RE := .cat r (.star r)
def wsPlus : RE := plusRE wsCls
def wsStar : RE := .star wsCls
def cyrHyPlus : RE := plusRE (.cls (fun c => isCyrBasic c || c == '-'))

/-- `DataProcessor.CITY_CORRECTIONS`, in definition (= dict iteration) order. -/
def CITY_CORRECTIONS : List (String × String) :=
  [("о", "Одинцово"),
   ("иево", "Сергиев Посад"),
   ("иево-посадск", "Сергиев Посад"),
   ("с. посад", "Сергиев Посад"),
   ("с.посад", "Сергиев Посад"),
   ("серг посад", "Сергиев Посад"),
   ("серг. посад", "Сергиев Посад"),
   ("сергиево", "Сергиев Посад"),
   ("сергиев", "Сергиев Посад"),
   ("киржачск", "Киржач")]

/-- The regex `rf'\b{abbr}\b'` built from a dictionary key; a `.` inside
the key is the regex any-character metacharacter, exactly as in the source,
which interpolates the key into the pattern without escaping. -/
def abbrRE (ab : String) : RE :=
  .cat .bnd (.cat
    (ab.data.foldr (fun c acc =>
      RE.cat (if c == '.' then .cls (fun d => d != '\n') else .cls (fun d => d == c)) acc) .eps)
    .bnd)

/-- `(?:го\s+|г\.\s*|город\s+|городской округ\s+)([А-Яа-я\-]+)` -/
def pattern0 : RE :=
  .cat (.alt (.cat (litCI "го") wsPlus)
        (.alt (.cat (litCI "г.") wsStar)
         (.alt (.cat (litCI "город") wsPlus)
          (.cat (litCI "городской округ") wsPlus))))
    (.grp cyrHyPlus)

def knownCityAlt : RE :=
  .alt (litCI "Волоколамск")
   (.alt (litCI "Одинцово")
    (.alt (.cat (litCI "Сергиев") (.cat wsStar (litCI "Посад")))
     (.alt (litCI "Киржач") (litCI "Аленино"))))

/-- `(?:^|\s)(Волоколамск|Одинцово|Сергиев\s*Посад|Киржач|Аленино)(?:\s|$|,)` -/
def pattern1 : RE :=
  .cat (.alt .bol wsCls)
    (.cat (.grp knownCityAlt) (.alt wsCls (.alt .eol (.cls (fun c => c == ',')))))

/-- `([А-Яа-я\-]+)(?:\s+(?:муниципальный округ|район|го))` -/
def pattern2 : RE :=
  .cat (.grp cyrHyPlus)
    (.cat wsPlus (.alt (litCI "муниципальный округ") (.alt (litCI "район") (litCI "го"))))

/-- `(?:с\.|д\.|п\.|село|деревня|поселок)\s*([А-Яа-я\-]+)` -/
def pattern3 : RE :=
  .cat (.alt (litCI "с.")
        (.alt (litCI "д.")
         (.alt (litCI "п.")
          (.alt (litCI "село") (.alt (litCI "деревня") (litCI "поселок"))))))
    (.cat wsStar (.grp cyrHyPlus))

def patternsList : List RE := [pattern0, pattern1, pattern2, pattern3]

/-- The `locations` dict of `_parse_addresses`: an insertion-ordered map
from city name to priority. -/
def lookupLoc (c : String) : List (String × Nat) → Option Nat
  | [] => none
  | (k, v) :: rest => if k = c then some v else lookupLoc c rest

/-- Python dict assignment `locations[city] = p` (update in place, or append). -/
def setLoc : List (String × Nat) → String → Nat → List (String × Nat)
  | [], c, p => [(c, p)]
  | (k, v) :: rest, c, p =>
    if k = c then (k, p) :: rest else (k, v) :: setLoc rest c p

/-- `if city not in locations or locations[city] < priority: locations[city] = priority` -/
def patUpdate (locs : List (String × Nat)) (city : String) (priority : Nat) :
    List (String × Nat) :=
  match lookupLoc city locs with
  | none => locs ++ [(city, priority)]
  | some cur => if cur < priority then setLoc locs city priority else locs

/-- One iteration of the correction-dictionary loop on a line. -/
def dictStep (address : String) (locs : List (String × Nat)) (pr : String × String) :
    List (String × Nat) :=
  if reTest (abbrRE pr.1) (pyLower address) then setLoc locs pr.2 3 else locs

/-- One iteration of the pattern loop on a line (`ipat` is `(i, pattern)`
from `enumerate`, the recorded priority is `3 - i`). -/
def patStep (address : String) (locs : List (String × Nat)) (ipat : Nat × RE) :
    List (String × Nat) :=
  match reSearch ipat.2 address with
  | some cap =>
    let city := pyStrip (String.mk (cap.getD []))
    if pyLower city ≠ "дмитров" then patUpdate locs city (3 - ipat.1) else locs
  | none => locs

/-- Processing of one non-empty stripped address line: the dictionary pass
followed by the pattern pass.  (The region extraction of the source is dead
code — its result is never read — and is not modelled.) -/
def processLine (locs : List (String × Nat)) (address : String) : List (String × Nat) :=
  (patternsList.enum).foldl (patStep address)
    (CITY_CORRECTIONS.foldl (dictStep address) locs)

def lineStep (locs : List (String × Nat)) (line : String) : List (String × Nat) :=
  let address := pyStrip line
  if address = "" then locs else processLine locs address

def parseLocs (address_text : String) : List (String × Nat) :=
  (splitLines (stripQuotes address_text)).foldl lineStep []

/-- Stable insertion (descending by priority) used to model Python's stable
`sorted(..., key=priority, reverse=True)`. -/
def insDesc (x : String × Nat) : List (String × Nat) → List (String × Nat)
  | [] => [x]
  | y :: ys => if y.2 ≤ x.2 then x :: y :: ys else y :: insDesc x ys

def sortDesc (l : List (String × Nat)) : List (String × Nat) := l.foldr insDesc []

/-- `DataProcessor._parse_addresses`. -/
def parse_addresses (address_text : String) : List String :=
  (sortDesc (parseLocs address_text)).map Prod.fst

/-- A calendar date, as much of `datetime` as the program observes. -/
structure PDate where
  year : Nat
  month : Nat
  day : Nat
deriving DecidableEq, Repr

/-- A `decimal.Decimal` value: a finite value keeps the exact coefficient
and power-of-ten exponent produced by the string constructor (so `1234.50`
is `fin 123450 (-2)`), plus the special values. -/
inductive Decimal where
  | fin (m : Int) (e : Int)
  | inf
  | ninf
  | nanD
deriving DecidableEq, Repr

/-- A spreadsheet cell as the row processor sees it: missing (`NaN`),
a string, or a structured date value. -/
inductive PCell where
  | nanC
  | strC (s : String)
  | dtC (d : PDate)
deriving DecidableEq, Repr

def padTo (width : Nat) (n : Nat) : String :=
  let s := toString n
  String.mk (List.replicate (width - s.data.length) '0') ++ s

/-- `date.strftime("%d.%m.%Y")`. -/
def strftimeDMY (d : PDate) : String :=
  padTo 2 d.day ++ "." ++ padTo 2 d.month ++ "." ++ padTo 4 d.year

/-- Python `str()` of a cell (`str(datetime)` is the ISO rendering). -/
def pcellString : PCell → String
  | .nanC => "nan"
  | .strC s => s
  | .dtC d => padTo 4 d.year ++ "-" ++ padTo 2 d.month ++ "-" ++ padTo 2 d.day ++ " 00:00:00"

/-- The mutable per-run state of a `DataProcessor` instance
(`self.errors`, `self.warnings`). -/
structure PState where
  errors : List String := []
  warnings : List String := []
deriving DecidableEq, Repr

def warnRow (st : PState) (i : Nat) (msg : String) : PState :=
  { st with warnings := st.warnings ++ ["Строка " ++ toString (i + 1) ++ ": " ++ msg] }

/-- `str(x).replace(',', '.').replace(' ', '')` from `_parse_amount`. -/
def cleanAmount (s : String) : String :=
  String.mk ((s.data.map (fun c => if c == ',' then '.' else c)).filter (fun c => c != ' '))

/-- PEP-515 underscore rule of the `Decimal` constructor: every underscore
must sit between two digits. -/
def underscoresOK : Option Char → List Char → Bool
  | _, [] => true
  | prev, c :: rest =>
    if c == '_' then
      (match prev with | some p => p.isDigit | none => false) &&
      (match rest with | d :: _ => d.isDigit | [] => false) &&
      underscoresOK (some c) rest
    else underscoresOK (some c) rest

def isInfKw (cs : List Char) : Bool :=
  let l := cs.map charLower
  l == "inf".data || l == "infinity".data

def isNanKw (cs : List Char) : Bool :=
  let l := cs.map charLower
  (l.take 3 == "nan".data && (l.drop 3).all Char.isDigit) ||
  (l.take 4 == "snan".data && (l.drop 4).all Char.isDigit)

def natOfDigits (ds : List Char) : Nat := ds.foldl (fun acc c => 10 * acc + (c.toNat - 48)) 0

def spanDigits (cs : List Char) : List Char × List Char :=
  (cs.takeWhile Char.isDigit, cs.dropWhile Char.isDigit)

/-- `digits [. digits]` with at least one digit; returns the coefficient
and the number of fractional digits. -/
def parseMantissa (cs : List Char) : Option (Nat × Nat) :=
  let (d1, r1) := spanDigits cs
  match r1 with
  | [] => if d1.isEmpty then none else some (natOfDigits d1, 0)
  | '.' :: r2 =>
    let (d2, r3) := spanDigits r2
    if r3.isEmpty && !(d1.isEmpty && d2.isEmpty) then
      some (natOfDigits (d1 ++ d2), d2.length)
    else none
  | _ => none

def parseExp (cs : List Char) : Option Int :=
  let (neg, body) : Bool × List Char :=
    match cs with
    | '-' :: r => (true, r)
    | '+' :: r => (false, r)
    | r => (false, r)
  let (ds, rest) := spanDigits body
  if rest.isEmpty && !ds.isEmpty then
    some (if neg then -(natOfDigits ds : Int) else (natOfDigits ds : Int))
  else none

def splitOnE : List Char → List Char × Option (List Char)
  | [] => ([], none)
  | c :: rest =>
    if c == 'e' || c == 'E' then ([], some rest)
    else
      let (m, ex) := splitOnE rest
      (c :: m, ex)

def parseNumericParts (cs : List Char) : Option (Nat × Int) :=
  let (m, ex) := splitOnE cs
  match parseMantissa m with
  | none => none
  | some (n, fracLen) =>
    match ex with
    | none => some (n, -(fracLen : Int))
    | some e =>
      match parseExp e with
      | none => none
      | some ev => some (n, ev - (fracLen : Int))

def parseSigned (neg : Bool) (cs : List Char) : Option Decimal :=
  if isInfKw cs then some (if neg then .ninf else .inf)
  else if isNanKw cs then some .nanD
  else
    match parseNumericParts cs with
    | some (n, e) => some (.fin (if neg then -(n : Int) else (n : Int)) e)
    | none => none

/-- The `Decimal(string)` constructor: optional surrounding whitespace,
underscore removal, optional sign, then a numeric value or a special. -/
def parseDecimal (s : String) : Option Decimal :=
  let cs0 := stripChars isPySpaceChar s.data
  if underscoresOK none cs0 then
    let cs1 := cs0.filter (fun c => c != '_')
    match cs1 with
    | c :: r =>
      if c == '-' then parseSigned true r
      else if c == '+' then parseSigned false r
      else parseSigned false (c :: r)
    | [] => parseSigned false []
  else none

/-- `DataProcessor._parse_amount`. -/
def parse_amount (st : PState) (cell : PCell) (row_index : Nat) : PState × Decimal :=
  match cell with
  | .nanC => (warnRow st row_index "сумма не указана", .fin 0 (-2))
  | c =>
    match parseDecimal (cleanAmount (pcellString c)) with
    | some d => (st, d)
    | none => (warnRow st row_index "не удалось преобразовать сумму", .fin 0 (-2))

def isLeap (y : Nat) : Bool := y % 4 == 0 && (y % 100 != 0 || y % 400 == 0)

def daysInMonth (y m : Nat) : Nat :=
  if m == 2 then (if isLeap y then 29 else 28)
  else if m == 4 || m == 6 || m == 9 || m == 11 then 30 else 31

/-- A 1-or-2-digit numeric `strptime` field restricted to `[lo, hi]`. -/
def twoDigitField (ds : List Char) (lo hi : Nat) : Option Nat :=
  if ds.all Char.isDigit && !ds.isEmpty && ds.length ≤ 2 then
    let v := natOfDigits ds
    if lo ≤ v && v ≤ hi then some v else none
  else none

/-- The `%Y` field: exactly four digits. -/
def yearField (ds : List Char) : Option Nat :=
  if ds.all Char.isDigit && ds.length == 4 then some (natOfDigits ds) else none

/-- `datetime` constructor validity (calendar check). -/
def mkValidDate (y m d : Nat) : Option PDate :=
  if 1 ≤ y && 1 ≤ d && d ≤ daysInMonth y m then some ⟨y, m, d⟩ else none

/-- `strptime` with format day `sep` month `sep` 4-digit year. -/
def strptimeDMY (sep : Char) (v : String) : Option PDate :=
  match splitOnChar sep v.data with
  | [ds, ms, ys] =>
    match twoDigitField ds 1 31, twoDigitField ms 1 12, yearField ys with
    | some d, some m, some y => mkValidDate y m d
    | _, _, _ => none
  | _ => none

/-- `strptime` with format `%Y-%m-%d`. -/
def strptimeISO (v : String) : Option PDate :=
  match splitOnChar '-' v.data with
  | [ys, ms, ds] =>
    match yearField ys, twoDigitField ms 1 12, twoDigitField ds 1 31 with
    | some y, some m, some d => mkValidDate y m d
    | _, _, _ => none
  | _ => none

/-- The ordered format list of `_parse_date`. -/
def parse_date_formats (v : String) : Option PDate :=
  match strptimeDMY '.' v with
  | some d => some d
  | none =>
    match strptimeISO v with
    | some d => some d
    | none => strptimeDMY '/' v

/-- `DataProcessor._parse_date`; `now` stands for `datetime.now()`. -/
def parse_date (st : PState) (cell : PCell) (row_index : Nat) (now : PDate) :
    PState × Option PDate :=
  match cell with
  | .nanC => (warnRow st row_index "пустая дата", some now)
  | .dtC d => (st, some d)
  | .strC v =>
    match parse_date_formats v with
    | some d => (st, some d)
    | none => (warnRow st row_index "не удалось распознать дату", some now)

/-- `DataProcessor._extract_driver_name`. -/
def extract_driver_name (st : PState) (cell : PCell) (row_index : Nat) : PState × String :=
  match cell with
  | .nanC => (warnRow st row_index "водитель не указан", "НЕ УКАЗАН")
  | c =>
    let driver_str := pcellString c
    if driver_str.data.contains ',' then
      (st, pyStrip (String.mk (driver_str.data.takeWhile (fun ch => ch != ','))))
    else (warnRow st row_index "не удалось извлечь имя водителя", driver_str)

/-- `r'Газель\s+([А-Я0-9]+)'` (no IGNORECASE). -/
def carRE : RE :=
  .cat (litCS "Газель") (.cat wsPlus (.grp (plusRE (.cls (fun c => isUpperCyr c || c.isDigit)))))

/-- `DataProcessor._extract_car_number`. -/
def extract_car_number (st : PState) (cell : PCell) (row_index : Nat) : PState × String :=
  match cell with
  | .nanC => (warnRow st row_index "автомобиль не указан", "НЕ УКАЗАН")
  | c =>
    match reSearch carRE (pcellString c) with
    | some cap => (st, String.mk (cap.getD []))
    | none => (warnRow st row_index "не удалось извлечь номер автомобиля", "НЕ УКАЗАН")

/-- Python truthiness test `pd.isna(x) or not x` on an address cell:
missing, or an empty string (a datetime is always truthy). -/
def cellFalsy : PCell → Bool
  | .nanC => true
  | .strC s => s == ""
  | .dtC _ => false

/-- `DataProcessor._extract_route`. -/
def extract_route (st : PState) (cell : PCell) (row_index : Nat) : PState × List String :=
  if cellFalsy cell then
    (warnRow st row_index "адрес не указан", ["Дмитров", "Неизвестный пункт"])
  else
    let locations := parse_addresses (pcellString cell)
    if locations = [] then
      (warnRow st row_index "не удалось извлечь маршрут", ["Дмитров", "Неизвестный пункт"])
    else (st, "Дмитров" :: locations.take 3)

/-- `models.TransportService`.  `_description` is the instance attribute the
editing UI writes through `service._description = str(value)`; the dataclass
itself never declares or reads it. -/
structure TransportService where
  date : PDate
  driver_name : String
  car_number : String
  route : List String
  quantity : Nat := 1
  unit : String := "шт."
  price : Decimal := .fin 0 (-2)
  amount : Decimal := .fin 0 (-2)
  _description : Option String := none
deriving DecidableEq, Repr

def joinWith (sep : String) : List String → String
  | [] => ""
  | [x] => x
  | x :: xs => x ++ sep ++ joinWith sep xs

/-- The `description` property of `TransportService`: always recomputed
from `date`, `driver_name`, `car_number` and `route`. -/
def TransportService.description (s : TransportService) : String :=
  "Транспортные услуги " ++ strftimeDMY s.date ++ " водит. " ++ s.driver_name ++
  ", а/м Газель " ++ s.car_number ++ ", маршрут " ++ joinWith " - " s.route

def containsSubstr (needle hay : List Char) : Bool :=
  match hay with
  | [] => needle.isEmpty
  | _ :: rest => needle.isPrefixOf hay || containsSubstr needle rest

/-- Python `value.split("маршрут")`. -/
def splitMarshrut (l : List Char) : List (List Char) :=
  match l with
  | [] => [[]]
  | c :: rest =>
    if ("маршрут".data).isPrefixOf (c :: rest) then
      [] :: splitMarshrut (rest.drop 6)
    else
      match splitMarshrut rest with
      | h :: t => (c :: h) :: t
      | [] => [[c]]
termination_by l.length
decreasing_by
  all_goals simp [List.length_drop]
  all_goals omega

/-- The description-column branch of `setData` in the editing UI
(`modern_ui.py`): store the override in `_description`, and additionally
re-derive `route` when the text contains the word "маршрут". -/
def setDataDescription (service : TransportService) (value : String) : TransportService :=
  let service := { service with _description := some value }
  if containsSubstr "маршрут".data value.data then
    let parts := (splitMarshrut value.data).map String.mk
    if parts.length > 1 then
      let route_str := pyStrip (parts.getD 1 "")
      if route_str ≠ "" then
        { service with
          route := (splitOnChar '-' route_str.data).map (fun p => pyStrip (String.mk p)) }
      else service
    else service
  else service

/-- A loaded table: column labels plus rows of cells (positional). -/
structure DataFrame where
  columns : List String
  rows : List (List PCell)
deriving DecidableEq, Repr

def requiredColumns : List String :=
  ["Дата", "Водитель", "Авто", "Адрес выгрузки", "Сумма за рейсы"]

def dfGet (columns : List String) (cells : List PCell) (col : String) : PCell :=
  match columns.findIdx? (fun c => c == col) with
  | some i => cells.getD i .nanC
  | none => .nanC

/-- `DataProcessor._process_row`. -/
def process_row (st : PState) (columns : List String) (cells : List PCell)
    (index : Nat) (now : PDate) : PState × Option TransportService :=
  let (st, dateOpt) := parse_date st (dfGet columns cells "Дата") index now
  match dateOpt with
  | none => (st, none)
  | some date =>
    let (st, driver_name) := extract_driver_name st (dfGet columns cells "Водитель") index
    let (st, car_number) := extract_car_number st (dfGet columns cells "Авто") index
    let (st, route) := extract_route st (dfGet columns cells "Адрес выгрузки") index
    let (st, amount) := parse_amount st (dfGet columns cells "Сумма за рейсы") index
    (st, some { date, driver_name, car_number, route, price := amount, amount := amount })

/-- `DataProcessor._process_data`. -/
def process_data (st : PState) (columns : List String) (rows : List (List PCell))
    (now : PDate) : PState × List TransportService :=
  rows.enum.foldl (fun acc irow =>
    let (st, services) := acc
    let (st, svc) := process_row st columns irow.2 irow.1 now
    match svc with
    | some s => (st, services ++ [s])
    | none => (st, services)) (st, [])

/-- The fuzzy column rename of `_validate_structure`: first actual column
whose lowercase form contains the lowercase required label. -/
def fuzzyRename (columns : List String) (col : String) : Option (List String) :=
  match columns.find? (fun actual => containsSubstr (pyLower col).data (pyLower actual).data) with
  | some actual => some (columns.map (fun x => if x = actual then col else x))
  | none => none

/-- `DataProcessor._validate_structure`; `none` models a `False` return,
`some df` a `True` return together with the renames applied to the frame. -/
def validate_structure (st : PState) (df : DataFrame) : PState × Option DataFrame :=
  let (columns, missing) := requiredColumns.foldl (fun acc col =>
    let (columns, missing) := acc
    if columns.contains col then (columns, missing)
    else
      match fuzzyRename columns col with
      | some cols => (cols, missing)
      | none => (columns, missing ++ [col])) (df.columns, [])
  if missing = [] then (st, some { df with columns := columns })
  else
    ({ st with errors := st.errors ++
        ["Отсутствуют необходимые колонки: " ++ joinWith ", " missing] }, none)

/-- `models.ProcessingResult`. -/
structure ProcessingResult where
  success : Bool
  message : String
  data : Option (List TransportService) := none
  errors : List String := []
  warnings : List String := []
deriving DecidableEq, Repr

/-- `DataProcessor._load_data`, with the file system and the pandas readers
abstracted into `env`: `some df` when some reader succeeds, `none` when the
file is unreadable in every supported format. -/
def load_data (st : PState) (env : Option DataFrame) : PState × Option DataFrame :=
  match env with
  | some df => (st, some df)
  | none =>
    ({ st with errors := st.errors ++
        ["Не удалось загрузить файл ни в одном из поддерживаемых форматов"] }, none)

/-- `DataProcessor.process_file`.  The first two statements of the method
reset `self.errors` and `self.warnings`; every failure is returned as a
`ProcessingResult` (the embedding is total, as the source wraps the body in
a catch-all handler). -/
def process_file (st : PState) (env : Option DataFrame) (now : PDate) :
    PState × ProcessingResult :=
  let st := { st with errors := [], warnings := [] }
  match load_data st env with
  | (st, none) =>
    (st, { success := false, message := "Не удалось загрузить файл", errors := st.errors })
  | (st, some df) =>
    match validate_structure st df with
    | (st, none) =>
      (st, { success := false, message := "Неверная структура файла", errors := st.errors })
    | (st, some df) =>
      let (st, services) := process_data st df.columns df.rows now
      (st, { success := true,
             message := "Обработано " ++ toString services.length ++ " записей",
             data := some services, warnings := st.warnings })

/-- Bool test used in statements: the stringified cell contains no
minus-sign character (a missing cell has no text at all). -/
def noMinusCell : PCell → Bool
  | .nanC => true
  | .strC s => !(s.data.contains '-')
  | .dtC _ => false

/-- A concrete service record used as a test fixture. -/
def svc6 : TransportService :=
  { date := ⟨2024, 3, 15⟩, driver_name := "Иванов", car_number := "А123",
    route := ["Дмитров", "Клин"] }

/-- A concrete well-formed input row used as a test fixture. -/
def rowCellsW : List PCell :=
  [.dtC ⟨2024, 3, 15⟩, .strC "Иванов, в", .strC "Газель А1", .strC "г. Клин", .strC "100"]

/-- The service produced from `rowCellsW`. -/
def svcW : TransportService :=
  { date := ⟨2024, 3, 15⟩, driver_name := "Иванов", car_number := "А1",
    route := ["Дмитров", "Клин"], price := .fin 100 0, amount := .fin 100 0 }

/-- `rowCellsW` with a negative amount cell. -/
def rowCellsNeg : List PCell :=
  [.dtC ⟨2024, 3, 15⟩, .strC "Иванов, в", .strC "Газель А1", .strC "г. Клин", .strC "-5"]

/-- The service produced from `rowCellsNeg`. -/
def svcNeg : TransportService :=
  { date := ⟨2024, 3, 15⟩, driver_name := "Иванов", car_number := "А1",
    route := ["Дмитров", "Клин"], price := .fin (-5) 0, amount := .fin (-5) 0 }

lemma extract_route_snd_const (st st' : PState) (c : PCell) (i j : Nat) :
    (extract_route st c i).2 = (extract_route st' c j).2 := by
  by_cases h : cellFalsy c = true
  · simp [extract_route, h]
  · by_cases h2 : parse_addresses (pcellString c) = [] <;>
      simp [extract_route, h, h2]

lemma extract_route_head_len (st : PState) (c : PCell) (i : Nat) :
    (extract_route st c i).2.head? = some "Дмитров" ∧ (extract_route st c i).2.length ≤ 4 := by
  by_cases h : cellFalsy c = true
  · simp [extract_route, h]
  · by_cases h2 : parse_addresses (pcellString c) = [] <;>
      simp [extract_route, h, h2]

lemma parse_date_snd_const (st st' : PState) (c : PCell) (i j : Nat) (now : PDate) :
    (parse_date st c i now).2 = (parse_date st' c j now).2 := by
  cases c with
  | strC v => cases h : parse_date_formats v <;> simp [parse_date, h]
  | nanC => rfl
  | dtC d => rfl

lemma extract_driver_name_snd_const (st st' : PState) (c : PCell) (i j : Nat) :
    (extract_driver_name st c i).2 = (extract_driver_name st' c j).2 := by
  cases c with
  | strC v => by_cases h : ',' ∈ v.data <;> simp [extract_driver_name, pcellString, h]
  | nanC => rfl
  | dtC d =>
    by_cases h : ',' ∈ (pcellString (.dtC d)).data <;>
      simp [extract_driver_name, h]

lemma extract_car_number_snd_const (st st' : PState) (c : PCell) (i j : Nat) :
    (extract_car_number st c i).2 = (extract_car_number st' c j).2 := by
  cases c with
  | strC v => cases h : reSearch carRE (pcellString (.strC v)) <;> simp [extract_car_number, h]
  | nanC => rfl
  | dtC d => cases h : reSearch carRE (pcellString (.dtC d)) <;> simp [extract_car_number, h]

lemma parse_amount_snd_const (st st' : PState) (c : PCell) (i j : Nat) :
    (parse_amount st c i).2 = (parse_amount st' c j).2 := by
  cases c with
  | strC v => cases h : parseDecimal (cleanAmount (pcellString (.strC v))) <;> simp [parse_amount, h]
  | nanC => rfl
  | dtC d => cases h : parseDecimal (cleanAmount (pcellString (.dtC d))) <;> simp [parse_amount, h]

lemma process_row_snd (st : PState) (columns : List String) (cells : List PCell)
    (index : Nat) (now : PDate) :
    (process_row st columns cells index now).2 =
      match (parse_date {} (dfGet columns cells "Дата") index now).2 with
      | none => none
      | some date =>
        some { date := date,
               driver_name := (extract_driver_name {} (dfGet columns cells "Водитель") index).2,
               car_number := (extract_car_number {} (dfGet columns cells "Авто") index).2,
               route := (extract_route {} (dfGet columns cells "Адрес выгрузки") index).2,
               price := (parse_amount {} (dfGet columns cells "Сумма за рейсы") index).2,
               amount := (parse_amount {} (dfGet columns cells "Сумма за рейсы") index).2 } := by
  unfold process_row
  rcases h1 : parse_date st (dfGet columns cells "Дата") index now with ⟨s1, d1⟩
  have e1 : d1 = (parse_date {} (dfGet columns cells "Дата") index now).2 := by
    rw [← parse_date_snd_const st {} (dfGet columns cells "Дата") index index now, h1]
  rw [← e1]
  cases d1 with
  | none => rfl
  | some date =>
    dsimp only
    rcases h2 : extract_driver_name s1 (dfGet columns cells "Водитель") index with ⟨s2, dr⟩
    have e2 : dr = (extract_driver_name {} (dfGet columns cells "Водитель") index).2 := by
      rw [← extract_driver_name_snd_const s1 {} (dfGet columns cells "Водитель") index index, h2]
    rw [← e2]
    dsimp only
    rcases h3 : extract_car_number s2 (dfGet columns cells "Авто") index with ⟨s3, car⟩
    have e3 : car = (extract_car_number {} (dfGet columns cells "Авто") index).2 := by
      rw [← extract_car_number_snd_const s2 {} (dfGet columns cells "Авто") index index, h3]
    rw [← e3]
    dsimp only
    rcases h4 : extract_route s3 (dfGet columns cells "Адрес выгрузки") index with ⟨s4, rt⟩
    have e4 : rt = (extract_route {} (dfGet columns cells "Адрес выгрузки") index).2 := by
      rw [← extract_route_snd_const s3 {} (dfGet columns cells "Адрес выгрузки") index index, h4]
    rw [← e4]
    dsimp only
    rcases h5 : parse_amount s4 (dfGet columns cells "Сумма за рейсы") index with ⟨s5, am⟩
    have e5 : am = (parse_amount {} (dfGet columns cells "Сумма за рейсы") index).2 := by
      rw [← parse_amount_snd_const s4 {} (dfGet columns cells "Сумма за рейсы") index index, h5]
    rw [← e5]

/-- C9: address resolution is deterministic and idempotent — the route
computed by `extract_route` from an address cell does not depend on the
accumulated processor state, so resolving the same text twice (in
particular, immediately after a first resolution) yields the same ordered
list of cities. -/
theorem extract_route_idempotent (st st' : PState) (c : PCell) (i j : Nat) :
    (extract_route ((extract_route st c i).1) c j).2 = (extract_route st c i).2 ∧
    (extract_route st c i).2 = (extract_route st' c j).2 :=
  ⟨extract_route_snd_const _ _ c j i, extract_route_snd_const _ _ c i j⟩

/-- C10: the route extractor always returns at least two entries — a route
consisting of the origin alone is never produced; for a missing cell, an
empty-string cell, or a cell on which the resolver finds nothing, the
result is exactly `["Дмитров", "Неизвестный пункт"]`. -/
theorem extract_route_min_length (st : PState) (c : PCell) (i : Nat) :
    2 ≤ (extract_route st c i).2.length ∧
    (extract_route st .nanC i).2 = ["Дмитров", "Неизвестный пункт"] ∧
    (extract_route st (.strC "") i).2 = ["Дмитров", "Неизвестный пункт"] ∧
    (parse_addresses (pcellString c) = [] →
      (extract_route st c i).2 = ["Дмитров", "Неизвестный пункт"]) := by
  refine ⟨?_, rfl, rfl, ?_⟩
  · by_cases h : cellFalsy c = true
    · simp [extract_route, h]
    · by_cases h2 : parse_addresses (pcellString c) = []
      · simp [extract_route, h, h2]
      · simp [extract_route, h, h2]
        exact List.length_pos.mpr h2
  · intro h2
    by_cases h : cellFalsy c = true <;> simp [extract_route, h, h2]

theorem extract_route_min_length_witness :
    parse_addresses (pcellString (.strC "x")) = [] ∧
    (extract_route {} (.strC "x") 0).2 = ["Дмитров", "Неизвестный пункт"] :=
  ⟨by decide, (extract_route_min_length {} (.strC "x") 0).2.2.2 (by decide)⟩

/-- C8: `process_file` resets the per-run error and warning lists at the
start of every call, so its result (message, data, errors and warnings
included) is independent of the state left behind by any previous call on
the same instance: a re-entrant call equals a call on a fresh instance. -/
theorem process_file_state_reset (st1 st2 st0 : PState) (env env1 : Option DataFrame)
    (now now1 : PDate) :
    (process_file st1 env now).2 = (process_file st2 env now).2 ∧
    (process_file (process_file st0 env1 now1).1 env now).2 = (process_file {} env now).2 :=
  ⟨rfl, rfl⟩

/-- C7: `process_file` communicates every failure through the returned
`ProcessingResult`: whenever the result is not a success (file unreadable
in any supported format, or required columns missing after fuzzy matching),
no partial list of services is attached to it. -/
theorem process_file_failure_no_data (st : PState) (env : Option DataFrame) (now : PDate)
    (h : (process_file st env now).2.success = false) :
    (process_file st env now).2.data = none := by
  cases env with
  | none => rfl
  | some df =>
    rcases hv : validate_structure { errors := [], warnings := [] } df with ⟨stv, odf⟩
    cases odf with
    | none => simp [process_file, load_data, hv]
    | some df2 =>
      exfalso
      rcases hp : process_data stv df2.columns df2.rows now with ⟨stp, services⟩
      simp [process_file, load_data, hv, hp] at h

theorem process_file_failure_no_data_witness :
    (process_file {} none ⟨2024, 1, 1⟩).2.success = false ∧
    (process_file {} none ⟨2024, 1, 1⟩).2.data = none :=
  ⟨rfl, process_file_failure_no_data {} none ⟨2024, 1, 1⟩ rfl⟩

/-- C6: the editing UI stores a description override in the instance
attribute `_description`, but the `description` property of
`TransportService` recomputes its value from the date, driver, vehicle and
route fields and never reads the override — so after an override is set,
reading `description` still returns the recomputed sentence, not the
override string (the stored override is dead). -/
theorem description_override_ignored :
    (setDataDescription svc6 "ИНОЕ ОПИСАНИЕ").description = svc6.description ∧
    (setDataDescription svc6 "ИНОЕ ОПИСАНИЕ")._description = some "ИНОЕ ОПИСАНИЕ" ∧
    svc6.description ≠ "ИНОЕ ОПИСАНИЕ" := by
  refine ⟨rfl, rfl, by decide⟩

lemma mem_of_mem_dropWhile {p : Char → Bool} {x : Char} :
    ∀ {l : List Char}, x ∈ l.dropWhile p → x ∈ l := by
  intro l
  induction l with
  | nil => simp [List.dropWhile]
  | cons c cs ih =>
    intro h
    cases hp : p c with
    | true =>
      rw [List.dropWhile_cons, if_pos hp] at h
      exact List.mem_cons_of_mem c (ih h)
    | false =>
      rw [List.dropWhile_cons, if_neg (by simp [hp])] at h
      exact h

lemma mem_stripChars (p : Char → Bool) (x : Char) (l : List Char)
    (h : x ∈ stripChars p l) : x ∈ l := by
  unfold stripChars at h
  rw [List.mem_reverse] at h
  have h1 := mem_of_mem_dropWhile h
  rw [List.mem_reverse] at h1
  exact mem_of_mem_dropWhile h1

lemma minus_mem_cleanAmount (s : String) (h : '-' ∈ (cleanAmount s).data) : '-' ∈ s.data := by
  have h2 := List.mem_of_mem_filter h
  rcases List.mem_map.mp h2 with ⟨a, ha, hea⟩
  by_cases hc : a == ','
  · rw [if_pos hc] at hea
    exact absurd hea (by decide)
  · rw [if_neg hc] at hea
    exact hea ▸ ha

lemma parseSigned_false_nonneg (cs : List Char) (m e : Int)
    (h : parseSigned false cs = some (.fin m e)) : 0 ≤ m := by
  by_cases h1 : isInfKw cs = true
  · simp [parseSigned, h1] at h
  · by_cases h2 : isNanKw cs = true
    · simp [parseSigned, h1, h2] at h
    · rcases hp : parseNumericParts cs with _ | ⟨n, ex⟩
      · simp [parseSigned, h1, h2, hp] at h
      · simp [parseSigned, h1, h2, hp] at h
        omega

lemma parseDecimal_nonneg (s : String) (m e : Int)
    (hm : ¬ '-' ∈ s.data) (h : parseDecimal s = some (.fin m e)) : 0 ≤ m := by
  by_cases hu : underscoresOK none (stripChars isPySpaceChar s.data) = true
  · simp only [parseDecimal, hu, if_true] at h
    rcases hc : (stripChars isPySpaceChar s.data).filter (fun c => c != '_') with _ | ⟨c, r⟩
    · rw [hc] at h
      exact parseSigned_false_nonneg _ _ _ h
    · rw [hc] at h
      have hcmem : c ∈ s.data :=
        mem_stripChars _ c _ (List.mem_of_mem_filter (hc ▸ List.mem_cons_self c r))
      have hcne : (c == '-') = false := by
        cases hb : c == '-'
        · rfl
        · exact absurd (eq_of_beq hb ▸ hcmem) hm
      cases hb2 : c == '+'
      · simp [hcne, hb2] at h
        exact parseSigned_false_nonneg _ _ _ h
      · simp [hcne, hb2] at h
        exact parseSigned_false_nonneg _ _ _ h
  · simp [parseDecimal, hu] at h

/-- C5: the amount parser is exact and total — when the stringified cell
text, after replacing commas with periods and removing space characters,
parses as a decimal, the parser returns exactly that decimal and records
nothing; a blank cell or a parse failure yields exactly `0.00` with exactly
one appended warning (the embedding is a total function, matching the
catch-all handler of the source); in particular `"1 234,50"` yields
exactly `1234.50`. -/
theorem parse_amount_exact_spec (st : PState) (c : PCell) (i : Nat) :
    (∀ d, c ≠ .nanC → parseDecimal (cleanAmount (pcellString c)) = some d →
      parse_amount st c i = (st, d)) ∧
    (c ≠ .nanC → parseDecimal (cleanAmount (pcellString c)) = none →
      parse_amount st c i = (warnRow st i "не удалось преобразовать сумму", .fin 0 (-2))) ∧
    parse_amount st .nanC i = (warnRow st i "сумма не указана", .fin 0 (-2)) ∧
    (parse_amount st (.strC "1 234,50") i).2 = .fin 123450 (-2) := by
  refine ⟨?_, ?_, rfl, rfl⟩
  · intro d hne hp
    cases c with
    | nanC => exact absurd rfl hne
    | strC v => simp [parse_amount, hp]
    | dtC dt => simp [parse_amount, hp]
  · intro hne hp
    cases c with
    | nanC => exact absurd rfl hne
    | strC v => simp [parse_amount, hp]
    | dtC dt => simp [parse_amount, hp]

theorem parse_amount_exact_spec_witness :
    parse_amount {} (.strC "1 234,50") 0 = ({}, .fin 123450 (-2)) ∧
    parse_amount {} (.strC "абв") 0 =
      (warnRow {} 0 "не удалось преобразовать сумму", .fin 0 (-2)) :=
  ⟨(parse_amount_exact_spec {} (.strC "1 234,50") 0).1 (.fin 123450 (-2)) (by decide) (by decide),
   (parse_amount_exact_spec {} (.strC "абв") 0).2.1 (by decide) (by decide)⟩

/-- C3 (amended): `price` always equals `amount` on a constructed service,
and the parsed amount is non-negative whenever the stringified amount cell
contains no minus-sign character (blank and unparseable cells give `0.00`);
a cell whose text carries a leading minus sign, however, produces exactly
that negative decimal. -/
theorem amount_nonneg_amended :
    (∀ (st : PState) (c : PCell) (i : Nat) (m e : Int),
      noMinusCell c = true → (parse_amount st c i).2 = .fin m e → 0 ≤ m) ∧
    (∀ (st : PState) (columns : List String) (cells : List PCell) (index : Nat)
      (now : PDate) (svc : TransportService),
      (process_row st columns cells index now).2 = some svc → svc.price = svc.amount) := by
  constructor
  · intro st c i m e hval h
    cases c with
    | nanC =>
      simp [parse_amount] at h
      omega
    | dtC d => simp [noMinusCell] at hval
    | strC v =>
      have hvm : ¬ '-' ∈ v.data := by
        simp [noMinusCell, List.contains] at hval
        intro hx
        exact absurd (List.elem_eq_true_of_mem hx) (by simp [hval])
      rcases hp : parseDecimal (cleanAmount (pcellString (.strC v))) with _ | d
      · simp [parse_amount, hp] at h
        omega
      · simp [parse_amount, hp] at h
        subst h
        exact parseDecimal_nonneg _ m e (fun hx => hvm (minus_mem_cleanAmount v hx)) hp
  · intro st columns cells index now svc h
    rw [process_row_snd] at h
    rcases hd : (parse_date {} (dfGet columns cells "Дата") index now).2 with _ | date
    · rw [hd] at h; simp at h
    · rw [hd] at h
      simp only [Option.some.injEq] at h
      rw [← h]

/-- C3 counterexample: the amount cell `"-5"` passes through the amount
parser unchanged, producing the negative decimal `-5` on the constructed
service, so amounts are not always non-negative. -/
theorem parse_amount_negative_counterexample :
    (parse_amount {} (.strC "-5") 0).2 = .fin (-5) 0 ∧
    (process_row {} requiredColumns rowCellsNeg 0 ⟨2024, 1, 1⟩).2 = some svcNeg ∧
    svcNeg.amount = .fin (-5) 0 ∧ ((-5 : Int) < 0) :=
  ⟨rfl, by decide, rfl, by decide⟩

theorem amount_nonneg_amended_witness :
    noMinusCell (.strC "12,5") = true ∧
    (parse_amount {} (.strC "12,5") 0).2 = .fin 125 (-1) ∧
    (0 : Int) ≤ 125 ∧
    (process_row {} requiredColumns rowCellsW 0 ⟨2024, 1, 1⟩).2 = some svcW ∧
    svcW.price = svcW.amount :=
  ⟨by decide, by decide,
   amount_nonneg_amended.1 {} (.strC "12,5") 0 125 (-1) (by decide) (by decide),
   by decide,
   amount_nonneg_amended.2 {} requiredColumns rowCellsW 0 ⟨2024, 1, 1⟩ svcW (by decide)⟩

/-- C2: every service constructed by the row processor has a route that
starts with the fixed origin city `"Дмитров"` and contains at most three
further destinations, so its length is at most 4. -/
theorem process_row_route_origin (st : PState) (columns : List String) (cells : List PCell)
    (index : Nat) (now : PDate) (svc : TransportService)
    (h : (process_row st columns cells index now).2 = some svc) :
    svc.route.head? = some "Дмитров" ∧ svc.route.length ≤ 4 := by
  rw [process_row_snd] at h
  rcases hd : (parse_date {} (dfGet columns cells "Дата") index now).2 with _ | date
  · rw [hd] at h; simp at h
  · rw [hd] at h
    simp only [Option.some.injEq] at h
    rw [← h]
    exact extract_route_head_len {} (dfGet columns cells "Адрес выгрузки") index

theorem process_row_route_origin_witness :
    (process_row {} requiredColumns rowCellsW 0 ⟨2024, 1, 1⟩).2 = some svcW ∧
    svcW.route.head? = some "Дмитров" ∧ svcW.route.length ≤ 4 :=
  ⟨by decide,
   process_row_route_origin {} requiredColumns rowCellsW 0 ⟨2024, 1, 1⟩ svcW (by decide)⟩

lemma lookupLoc_mem (c : String) (v : Nat) :
    ∀ l : List (String × Nat), lookupLoc c l = some v → (c, v) ∈ l := by
  intro l
  induction l with
  | nil => intro h; exact absurd h (by simp [lookupLoc])
  | cons kv rest ih =>
    rcases kv with ⟨k, w⟩
    intro h
    by_cases hk : k = c
    · rw [lookupLoc, if_pos hk] at h
      rcases Option.some.inj h with rfl
      exact hk ▸ List.mem_cons_self _ _
    · rw [lookupLoc, if_neg hk] at h
      exact List.mem_cons_of_mem _ (ih h)

lemma lookupLoc_setLoc_self (c : String) (p : Nat) :
    ∀ l : List (String × Nat), lookupLoc c (setLoc l c p) = some p := by
  intro l
  induction l with
  | nil => simp [setLoc, lookupLoc]
  | cons kv rest ih =>
    rcases kv with ⟨k, w⟩
    by_cases hk : k = c
    · rw [setLoc, if_pos hk, lookupLoc, if_pos hk]
    · rw [setLoc, if_neg hk, lookupLoc, if_neg hk]
      exact ih

lemma lookupLoc_setLoc_ne (c c' : String) (p : Nat) (hne : c' ≠ c) :
    ∀ l : List (String × Nat), lookupLoc c (setLoc l c' p) = lookupLoc c l := by
  intro l
  induction l with
  | nil => simp [setLoc, lookupLoc, hne]
  | cons kv rest ih =>
    rcases kv with ⟨k, w⟩
    by_cases hk : k = c'
    · have hkc : ¬ k = c := by rw [hk]; exact hne
      rw [setLoc, if_pos hk, lookupLoc, lookupLoc, if_neg hkc, if_neg hkc]
    · rw [setLoc, if_neg hk, lookupLoc, lookupLoc, ih]

lemma lookupLoc_append_some (c : String) (v : Nat) (l l2 : List (String × Nat))
    (h : lookupLoc c l = some v) : lookupLoc c (l ++ l2) = some v := by
  induction l with
  | nil => exact absurd h (by simp [lookupLoc])
  | cons kv rest ih =>
    rcases kv with ⟨k, w⟩
    by_cases hk : k = c
    · rw [lookupLoc, if_pos hk] at h
      rw [List.cons_append, lookupLoc, if_pos hk]
      exact h
    · rw [lookupLoc, if_neg hk] at h
      rw [List.cons_append, lookupLoc, if_neg hk]
      exact ih h

lemma lookupLoc_append_none (c : String) (l l2 : List (String × Nat))
    (h : lookupLoc c l = none) : lookupLoc c (l ++ l2) = lookupLoc c l2 := by
  induction l with
  | nil => simp
  | cons kv rest ih =>
    rcases kv with ⟨k, w⟩
    by_cases hk : k = c
    · rw [lookupLoc, if_pos hk] at h
      exact absurd h (by simp)
    · rw [lookupLoc, if_neg hk] at h
      rw [List.cons_append, lookupLoc, if_neg hk]
      exact ih h

lemma patUpdate_self_ge (l : List (String × Nat)) (c : String) (p : Nat) :
    ∃ v, lookupLoc c (patUpdate l c p) = some v ∧ p ≤ v := by
  unfold patUpdate
  split
  next hl =>
    refine ⟨p, ?_, le_refl p⟩
    rw [lookupLoc_append_none c l _ hl, lookupLoc, if_pos rfl]
  next cur hl =>
    by_cases hcur : cur < p
    · rw [if_pos hcur]
      exact ⟨p, lookupLoc_setLoc_self c p l, le_refl p⟩
    · rw [if_neg hcur]
      exact ⟨cur, hl, Nat.le_of_not_lt hcur⟩

lemma patUpdate_preserve (l : List (String × Nat)) (c c' : String) (p v : Nat)
    (h : lookupLoc c l = some v) :
    ∃ v', lookupLoc c (patUpdate l c' p) = some v' ∧ v ≤ v' := by
  unfold patUpdate
  split
  next hl => exact ⟨v, lookupLoc_append_some c v l _ h, le_refl v⟩
  next cur hl =>
    by_cases hcur : cur < p
    · rw [if_pos hcur]
      by_cases hcc : c' = c
      · subst hcc
        rw [h] at hl
        rcases Option.some.inj hl with rfl
        exact ⟨p, lookupLoc_setLoc_self c' p l, Nat.le_of_lt hcur⟩
      · rw [lookupLoc_setLoc_ne c c' p hcc l]
        exact ⟨v, h, le_refl v⟩
    · rw [if_neg hcur]
      exact ⟨v, h, le_refl v⟩

lemma foldl_preserve {α β : Type} (P : α → Prop) (f : α → β → α)
    (hstep : ∀ x y, P x → P (f x y)) :
    ∀ (l : List β) (x : α), P x → P (l.foldl f x) := by
  intro l
  induction l with
  | nil => intro x hx; exact hx
  | cons z rest ih =>
    intro x hx
    rw [List.foldl_cons]
    exact ih (f x z) (hstep x z hx)

lemma foldl_establish {α β : Type} (P : α → Prop) (f : α → β → α) (y₀ : β)
    (hstep : ∀ x y, P x → P (f x y)) (hest : ∀ x, P (f x y₀)) :
    ∀ (l : List β), y₀ ∈ l → ∀ x, P (l.foldl f x) := by
  intro l
  induction l with
  | nil => intro h; exact absurd h (List.not_mem_nil y₀)
  | cons z rest ih =>
    intro hmem x
    rcases List.mem_cons.mp hmem with hz | hz
    · subst hz
      rw [List.foldl_cons]
      exact foldl_preserve P f hstep rest (f x y₀) (hest x)
    · rw [List.foldl_cons]
      exact ih hz (f x z)

lemma dictStep_preserve (a : String) (pr : String × String) (city : String) (b : Nat)
    (hb : b ≤ 3) (l : List (String × Nat))
    (h : ∃ v, lookupLoc city l = some v ∧ b ≤ v) :
    ∃ v, lookupLoc city (dictStep a l pr) = some v ∧ b ≤ v := by
  unfold dictStep
  by_cases ht : reTest (abbrRE pr.1) (pyLower a) = true
  · rw [if_pos ht]
    by_cases heq : pr.2 = city
    · subst heq
      exact ⟨3, lookupLoc_setLoc_self pr.2 3 l, hb⟩
    · rw [lookupLoc_setLoc_ne city pr.2 3 heq l]
      exact h
  · rw [if_neg ht]
    exact h

lemma patStep_preserve (a : String) (ipat : Nat × RE) (city : String) (b : Nat)
    (l : List (String × Nat))
    (h : ∃ v, lookupLoc city l = some v ∧ b ≤ v) :
    ∃ v, lookupLoc city (patStep a l ipat) = some v ∧ b ≤ v := by
  unfold patStep
  split
  next cap hs =>
    dsimp only
    by_cases hcity : pyLower (pyStrip (String.mk (cap.getD []))) ≠ "дмитров"
    · rw [if_pos hcity]
      rcases h with ⟨v, hv, hbv⟩
      rcases patUpdate_preserve l city _ (3 - ipat.1) v hv with ⟨v', hv', hvv⟩
      exact ⟨v', hv', le_trans hbv hvv⟩
    · rw [if_neg hcity]
      exact h
  next hs => exact h

lemma processLine_preserve (a : String) (city : String) (b : Nat) (hb : b ≤ 3)
    (l : List (String × Nat))
    (h : ∃ v, lookupLoc city l = some v ∧ b ≤ v) :
    ∃ v, lookupLoc city (processLine l a) = some v ∧ b ≤ v := by
  unfold processLine
  apply foldl_preserve (fun locs => ∃ v, lookupLoc city locs = some v ∧ b ≤ v)
    (patStep a) (fun x y hx => patStep_preserve a y city b x hx)
  apply foldl_preserve (fun locs => ∃ v, lookupLoc city locs = some v ∧ b ≤ v)
    (dictStep a) (fun x y hx => dictStep_preserve a y city b hb x hx)
  exact h

lemma lineStep_preserve (line : String) (city : String) (b : Nat) (hb : b ≤ 3)
    (l : List (String × Nat))
    (h : ∃ v, lookupLoc city l = some v ∧ b ≤ v) :
    ∃ v, lookupLoc city (lineStep l line) = some v ∧ b ≤ v := by
  unfold lineStep
  by_cases he : pyStrip line = ""
  · simp only [he, if_pos rfl]
    exact h
  · rw [if_neg he]
    exact processLine_preserve (pyStrip line) city b hb l h

lemma mem_insDesc (x y : String × Nat) :
    ∀ l, y ∈ insDesc x l ↔ y = x ∨ y ∈ l := by
  intro l
  induction l with
  | nil => simp [insDesc]
  | cons z zs ih =>
    by_cases h : z.2 ≤ x.2
    · simp only [insDesc, if_pos h, List.mem_cons]
    · simp only [insDesc, if_neg h, List.mem_cons, ih]
      tauto

lemma mem_sortDesc (y : String × Nat) : ∀ l, y ∈ sortDesc l ↔ y ∈ l := by
  intro l
  induction l with
  | nil => simp [sortDesc]
  | cons x xs ih =>
    show y ∈ insDesc x (sortDesc xs) ↔ _
    rw [mem_insDesc, ih, List.mem_cons]

lemma pairwise_insDesc (x : String × Nat) :
    ∀ l : List (String × Nat), l.Pairwise (fun a b => b.2 ≤ a.2) →
      (insDesc x l).Pairwise (fun a b => b.2 ≤ a.2) := by
  intro l
  induction l with
  | nil => intro _; simp [insDesc]
  | cons z zs ih =>
    intro h
    rcases List.pairwise_cons.mp h with ⟨hz, hzs⟩
    by_cases hle : z.2 ≤ x.2
    · rw [insDesc, if_pos hle]
      refine List.pairwise_cons.mpr ⟨?_, h⟩
      intro y hy
      rcases List.mem_cons.mp hy with rfl | hy2
      · exact hle
      · exact le_trans (hz y hy2) hle
    · rw [insDesc, if_neg hle]
      refine List.pairwise_cons.mpr ⟨?_, ih hzs⟩
      intro y hy
      rcases (mem_insDesc x y zs).mp hy with rfl | hy2
      · exact Nat.le_of_lt (Nat.lt_of_not_le hle)
      · exact hz y hy2

lemma sortDesc_pairwise :
    ∀ l : List (String × Nat), (sortDesc l).Pairwise (fun a b => b.2 ≤ a.2) := by
  intro l
  induction l with
  | nil => simp [sortDesc]
  | cons x xs ih => exact pairwise_insDesc x (sortDesc xs) ih

lemma sortDesc_head_max (l : List (String × Nat)) (hd : String × Nat) (t : List (String × Nat))
    (heq : sortDesc l = hd :: t) : ∀ x ∈ l, x.2 ≤ hd.2 := by
  intro x hx
  have hx2 : x ∈ sortDesc l := (mem_sortDesc x l).mpr hx
  rw [heq] at hx2
  rcases List.mem_cons.mp hx2 with rfl | h1
  · exact le_refl _
  · have hp := sortDesc_pairwise l
    rw [heq] at hp
    exact (List.pairwise_cons.mp hp).1 x h1

lemma mem_enum_patterns (i : Nat) (r : RE) (hget : patternsList.get? i = some r) :
    (i, r) ∈ patternsList.enum := by
  have henum : patternsList.enum = [(0, pattern0), (1, pattern1), (2, pattern2), (3, pattern3)] :=
    rfl
  rw [henum]
  obtain _ | (_ | (_ | (_ | n))) := i
  · simp only [patternsList, List.get?, Option.some.injEq] at hget
    rw [← hget]
    exact List.Mem.head _
  · simp only [patternsList, List.get?, Option.some.injEq] at hget
    rw [← hget]
    exact List.Mem.tail _ (List.Mem.head _)
  · simp only [patternsList, List.get?, Option.some.injEq] at hget
    rw [← hget]
    exact List.Mem.tail _ (List.Mem.tail _ (List.Mem.head _))
  · simp only [patternsList, List.get?, Option.some.injEq] at hget
    rw [← hget]
    exact List.Mem.tail _ (List.Mem.tail _ (List.Mem.tail _ (List.Mem.head _)))
  · simp only [patternsList, List.get?] at hget
    exact Option.noConfusion hget

lemma reSearch_patterns_empty (i : Nat) (r : RE) (hget : patternsList.get? i = some r) :
    reSearch r "" = none := by
  obtain _ | (_ | (_ | (_ | n))) := i
  · simp only [patternsList, List.get?, Option.some.injEq] at hget
    rw [← hget]; decide
  · simp only [patternsList, List.get?, Option.some.injEq] at hget
    rw [← hget]; decide
  · simp only [patternsList, List.get?, Option.some.injEq] at hget
    rw [← hget]; decide
  · simp only [patternsList, List.get?, Option.some.injEq] at hget
    rw [← hget]; decide
  · simp only [patternsList, List.get?] at hget
    exact Option.noConfusion hget

lemma processLine_establish_dict (a ab full : String)
    (hab : (ab, full) ∈ CITY_CORRECTIONS)
    (ht : reTest (abbrRE ab) (pyLower a) = true) (l : List (String × Nat)) :
    ∃ v, lookupLoc full (processLine l a) = some v ∧ 3 ≤ v := by
  unfold processLine
  apply foldl_preserve (fun locs => ∃ v, lookupLoc full locs = some v ∧ 3 ≤ v)
    (patStep a) (fun x y hx => patStep_preserve a y full 3 x hx)
  apply foldl_establish (fun locs => ∃ v, lookupLoc full locs = some v ∧ 3 ≤ v)
    (dictStep a) (ab, full) (fun x y hx => dictStep_preserve a y full 3 (le_refl 3) x hx)
    ?_ CITY_CORRECTIONS hab l
  intro x
  unfold dictStep
  rw [if_pos ht]
  exact ⟨3, lookupLoc_setLoc_self full 3 x, le_refl 3⟩

lemma processLine_establish_pattern (a : String) (i : Nat) (r : RE)
    (cap : Option (List Char))
    (hget : patternsList.get? i = some r)
    (hs : reSearch r a = some cap)
    (hcity : pyLower (pyStrip (String.mk (cap.getD []))) ≠ "дмитров")
    (l : List (String × Nat)) :
    ∃ v, lookupLoc (pyStrip (String.mk (cap.getD []))) (processLine l a) = some v ∧
      3 - i ≤ v := by
  unfold processLine
  refine foldl_establish
    (fun locs => ∃ v, lookupLoc (pyStrip (String.mk (cap.getD []))) locs = some v ∧ 3 - i ≤ v)
    (patStep a) (i, r) (fun x y hx => patStep_preserve a y _ (3 - i) x hx)
    ?_ patternsList.enum (mem_enum_patterns i r hget) _
  intro x
  unfold patStep
  dsimp only
  rw [hs]
  dsimp only
  rw [if_pos hcity]
  exact patUpdate_self_ge x _ (3 - i)

/-- C4: if an address block contains a correction-dictionary match mapping
to "Сергиев Посад" on some line (which records that city at the maximum
rank 3), and every other city in the accumulated priority map sits at a
strictly lower rank (as when only lower-priority pattern matches occur for
other cities), then "Сергиев Посад" ranks first among the resolver output
(and hence first among the destinations of the assembled route). -/
theorem dict_match_ranks_first (text : String)
    (h1 : ∃ line ∈ splitLines (stripQuotes text), ∃ ab,
        (ab, "Сергиев Посад") ∈ CITY_CORRECTIONS ∧
        reTest (abbrRE ab) (pyLower (pyStrip line)) = true)
    (h2 : ∀ p ∈ parseLocs text, p.1 = "Сергиев Посад" ∨ p.2 < 3)
    (_h3 : ∃ q ∈ parseLocs text, q.1 ≠ "Сергиев Посад") :
    (parse_addresses text).head? = some "Сергиев Посад" := by
  rcases h1 with ⟨line, hline, ab, hab, ht⟩
  have hempty : ∀ pr ∈ CITY_CORRECTIONS, reTest (abbrRE pr.1) (pyLower "") = false := by decide
  have hne : pyStrip line ≠ "" := by
    intro he
    rw [he] at ht
    have hff := hempty _ hab
    dsimp only at hff
    rw [ht] at hff
    exact Bool.noConfusion hff
  have hestab : ∃ v, lookupLoc "Сергиев Посад" (parseLocs text) = some v ∧ 3 ≤ v := by
    unfold parseLocs
    refine foldl_establish
      (fun locs => ∃ v, lookupLoc "Сергиев Посад" locs = some v ∧ 3 ≤ v)
      lineStep line
      (fun x y hx => lineStep_preserve y "Сергиев Посад" 3 (le_refl 3) x hx)
      ?_ (splitLines (stripQuotes text)) hline []
    intro x
    unfold lineStep
    rw [if_neg hne]
    exact processLine_establish_dict (pyStrip line) ab "Сергиев Посад" hab ht x
  rcases hestab with ⟨v, hv, h3v⟩
  have hmemSP : ("Сергиев Посад", v) ∈ parseLocs text := lookupLoc_mem _ _ _ hv
  rcases hsd : sortDesc (parseLocs text) with _ | ⟨hd, t⟩
  · have hmm := (mem_sortDesc ("Сергиев Посад", v) (parseLocs text)).mpr hmemSP
    rw [hsd] at hmm
    exact absurd hmm (List.not_mem_nil _)
  · have hhd : hd ∈ parseLocs text := by
      have hmm : hd ∈ sortDesc (parseLocs text) := by
        rw [hsd]; exact List.mem_cons_self hd t
      exact (mem_sortDesc hd _).mp hmm
    have hmax : v ≤ hd.2 := sortDesc_head_max (parseLocs text) hd t hsd ("Сергиев Посад", v) hmemSP
    have hhd1 : hd.1 = "Сергиев Посад" := by
      rcases h2 hd hhd with h | h
      · exact h
      · omega
    unfold parse_addresses
    rw [hsd]
    simp [hhd1]

theorem dict_match_ranks_first_witness :
    (parse_addresses "иево\nд. Клин").head? = some "Сергиев Посад" :=
  dict_match_ranks_first "иево\nд. Клин"
    ⟨"иево", by decide, "иево", by decide, by decide⟩
    (by decide)
    ⟨("Клин", 0), by decide, by decide⟩

/-- C1 (amended): every extraction pattern that matches an address line
contributes — a pattern match on any line of the block records the
extracted city in the final priority map at priority at least `3 - i`
(for pattern index `i`), independently of any other pattern match on the
same line, and the city therefore appears in the resolver output; a line
can thus yield up to one city per pattern, not at most one city overall. -/
theorem pattern_match_contributes (text line : String) (i : Nat) (r : RE)
    (cap : Option (List Char))
    (hline : line ∈ splitLines (stripQuotes text))
    (hget : patternsList.get? i = some r)
    (hs : reSearch r (pyStrip line) = some cap)
    (hcity : pyLower (pyStrip (String.mk (cap.getD []))) ≠ "дмитров") :
    ∃ v, lookupLoc (pyStrip (String.mk (cap.getD []))) (parseLocs text) = some v ∧
      3 - i ≤ v ∧ pyStrip (String.mk (cap.getD [])) ∈ parse_addresses text := by
  have hne : pyStrip line ≠ "" := by
    intro he
    rw [he] at hs
    rw [reSearch_patterns_empty i r hget] at hs
    exact Option.noConfusion hs
  have hestab : ∃ v, lookupLoc (pyStrip (String.mk (cap.getD []))) (parseLocs text) = some v ∧
      3 - i ≤ v := by
    unfold parseLocs
    refine foldl_establish
      (fun locs => ∃ v, lookupLoc (pyStrip (String.mk (cap.getD []))) locs = some v ∧ 3 - i ≤ v)
      lineStep line
      (fun x y hx => lineStep_preserve y _ (3 - i) (Nat.sub_le 3 i) x hx)
      ?_ (splitLines (stripQuotes text)) hline []
    intro x
    unfold lineStep
    rw [if_neg hne]
    exact processLine_establish_pattern (pyStrip line) i r cap hget hs hcity x
  rcases hestab with ⟨v, hv, hbv⟩
  refine ⟨v, hv, hbv, ?_⟩
  have hmem := lookupLoc_mem _ _ _ hv
  unfold parse_addresses
  exact List.mem_map.mpr ⟨_, (mem_sortDesc _ _).mpr hmem, rfl⟩

theorem pattern_match_contributes_witness :
    ∃ v, lookupLoc "Волоколамск" (parseLocs "г. Клин Волоколамск") = some v ∧
      3 - 1 ≤ v ∧ "Волоколамск" ∈ parse_addresses "г. Клин Волоколамск" := by
  have h := pattern_match_contributes "г. Клин Волоколамск" "г. Клин Волоколамск" 1 pattern1
    (some "Волоколамск".data) (by decide) rfl (by decide) (by decide)
  have hc : pyStrip (String.mk ((some "Волоколамск".data).getD [])) = "Волоколамск" := by decide
  rw [hc] at h
  exact h

/-- C1 counterexample: on the single-line address "г. Клин Волоколамск",
no correction-dictionary key matches, yet two different patterns (the
city-type-prefix pattern and the known-city allow-list pattern) both
contribute cities, so the resolver output carries two pattern-derived
cities from one line — not at most one. -/
theorem parse_addresses_two_cities_counterexample :
    parse_addresses "г. Клин Волоколамск" = ["Клин", "Волоколамск"] ∧
    splitLines (stripQuotes "г. Клин Волоколамск") = ["г. Клин Волоколамск"] ∧
    CITY_CORRECTIONS.all
      (fun pr => !reTest (abbrRE pr.1) (pyLower "г. Клин Волоколамск")) = true :=
  ⟨by decide, by decide, by decide⟩
